import Mathlib

/-!
Verification of the call-analytics ML backend orchestration layer.

Shallow embedding of the serving-path services:
* `ollama_service.py` — `InferenceCache` (get/set, TTL, FIFO-by-age eviction)
  and the 404 model-fallback path of `OllamaService.generate_response`.
* `llm_orchestrator.py` — complexity scoring, adaptive/fixed timeouts,
  Hebrew routing, `summarize_call` fallback.
* `embedding_service.py` — `generate_batch_embeddings` order reassembly.
* `huggingface_service.py` — `_validate_and_clean_response` repetition guard.
* `ml_pipeline.py` — `process_call` partial-success accumulation.
* `weaviate_service.py` — `add_transcription` retry loop.

Modelling conventions: wall-clock instants are natural numbers (the code
uses `datetime.now()`; only differences and ordering matter), durations in
responses are naturals, float temperatures are scaled integers (they are
only compared for cache-key equality, never computed with), and the md5
cache hash is modelled as the identity on its input (a collision-free
abstraction of a deterministic hash).  Network backends are oracles passed
in as explicit arguments.
-/

namespace CallAnalytics

/-! ## Data model: `LLMResponse` and the inference cache (`ollama_service.py`) -/

/-- `LLMResponse` dataclass of `ollama_service.py` (the open `metadata`
map is not itself inspected by any claim; the boolean records whether the
`fallback_used` flag was set in it). -/
structure LLMResponse where
  content : String
  model : String
  timestamp : Nat
  tokens_used : Nat
  processing_time : Nat
  fallback_used : Bool
  deriving Repr, DecidableEq

/-- The five request-shaping inputs serialized into an `InferenceCache`
key by `_get_cache_key` (md5 of their sorted-key JSON; modelled as the
tuple itself, which the hash determines injectively). -/
structure CacheKey where
  prompt : String
  model : String
  temperature : Int
  max_tokens : Nat
  classifications_available : Bool
  deriving Repr, DecidableEq

/-- One stored cache binding: `self.cache[key] = (response, datetime.now())`. -/
structure CacheEntry where
  key : CacheKey
  resp : LLMResponse
  time : Nat
  deriving Repr, DecidableEq

/-- `InferenceCache` state: the dict is an insertion-ordered association
list (Python dicts preserve insertion order, and updating an existing key
keeps its position). -/
structure InferenceCache where
  maxSize : Nat
  ttl : Nat
  entries : List CacheEntry
  deriving Repr, DecidableEq

/-- `key in self.cache` / `self.cache[key]`: first (unique) binding of the key. -/
def lookupEntry (k : CacheKey) : List CacheEntry → Option (LLMResponse × Nat)
  | [] => none
  | e :: es => if e.key = k then some (e.resp, e.time) else lookupEntry k es

/-- `del self.cache[key]`: dict deletion (keys are unique in a dict, so
removing every binding of `k` is exact). -/
def eraseKey (k : CacheKey) (es : List CacheEntry) : List CacheEntry :=
  es.filter (fun e => e.key ≠ k)

/-- Fold of Python `min(keys, key=timestamp)`: keeps the first entry whose
timestamp is strictly minimal (Python `min` replaces the running best only
on a strict decrease, so the earliest-inserted minimum wins ties). -/
def oldestAux (best : CacheEntry) : List CacheEntry → CacheEntry
  | [] => best
  | e :: es => if e.time < best.time then oldestAux e es else oldestAux best es

/-- `min(self.cache.keys(), key=lambda k: self.cache[k][1])`. -/
def oldestEntry : List CacheEntry → Option CacheEntry
  | [] => none
  | e :: es => some (oldestAux e es)

/-- `self.cache[key] = (response, now)`: update in place if present
(keeping dict position), else append. -/
def insertOrUpdate (k : CacheKey) (r : LLMResponse) (t : Nat) :
    List CacheEntry → List CacheEntry
  | [] => [⟨k, r, t⟩]
  | e :: es =>
    if e.key = k then ⟨k, r, t⟩ :: es else e :: insertOrUpdate k r t es

/-- `InferenceCache.get` (ollama_service.py:53-67): a fresh-enough entry is
returned exactly as stored (same response object, no copy, no field
reset); an expired entry is deleted and the call misses.  The pair is
(returned value, cache state after the call). -/
def cacheGet (c : InferenceCache) (k : CacheKey) (now : Nat) :
    Option LLMResponse × InferenceCache :=
  match lookupEntry k c.entries with
  | none => (none, c)
  | some (r, ts) =>
    if now - ts < c.ttl then (some r, c)
    else (none, { c with entries := eraseKey k c.entries })

/-- `InferenceCache.set` (ollama_service.py:69-80): when already at
capacity, the single entry with the globally smallest insertion timestamp
is evicted before the new binding is written. -/
def cacheSet (c : InferenceCache) (k : CacheKey) (r : LLMResponse) (now : Nat) :
    InferenceCache :=
  let es :=
    if c.maxSize ≤ c.entries.length then
      match oldestEntry c.entries with
      | some old => eraseKey old.key c.entries
      | none => c.entries
    else c.entries
  { c with entries := insertOrUpdate k r now es }

/-- Keys currently bound, in dict iteration (= insertion) order. -/
def cacheKeys (c : InferenceCache) : List CacheKey :=
  c.entries.map (·.key)

end CallAnalytics

namespace CallAnalytics

/-! ### Association-list lemmas for the cache -/

theorem lookupEntry_insertOrUpdate_self (k : CacheKey) (r : LLMResponse) (t : Nat) :
    ∀ es : List CacheEntry, lookupEntry k (insertOrUpdate k r t es) = some (r, t) := by
  intro es
  induction es with
  | nil => simp [insertOrUpdate, lookupEntry]
  | cons e es ih =>
    by_cases h : e.key = k
    · simp [insertOrUpdate, h, lookupEntry]
    · simp [insertOrUpdate, h, lookupEntry, ih]

theorem lookupEntry_eraseKey_self (k : CacheKey) :
    ∀ es : List CacheEntry, lookupEntry k (eraseKey k es) = none := by
  intro es
  induction es with
  | nil => simp [eraseKey, lookupEntry]
  | cons e es ih =>
    by_cases h : e.key = k
    · simpa [eraseKey, h] using ih
    · simpa [eraseKey, h, lookupEntry] using ih

theorem lookupEntry_append (k : CacheKey) (es es' : List CacheEntry) :
    lookupEntry k (es ++ es') =
      match lookupEntry k es with
      | some v => some v
      | none => lookupEntry k es' := by
  induction es with
  | nil => simp [lookupEntry]
  | cons e es ih =>
    by_cases h : e.key = k <;> simp [lookupEntry, h, ih]

theorem insertOrUpdate_of_absent (k : CacheKey) (r : LLMResponse) (t : Nat) :
    ∀ es : List CacheEntry, lookupEntry k es = none →
      insertOrUpdate k r t es = es ++ [⟨k, r, t⟩] := by
  intro es
  induction es with
  | nil => intro; simp [insertOrUpdate]
  | cons e es ih =>
    intro h
    by_cases hk : e.key = k
    · simp [lookupEntry, hk] at h
    · simp [lookupEntry, hk] at h
      simp [insertOrUpdate, hk, ih h]

theorem length_insertOrUpdate_le (k : CacheKey) (r : LLMResponse) (t : Nat) :
    ∀ es : List CacheEntry,
      (insertOrUpdate k r t es).length ≤ es.length + 1 := by
  intro es
  induction es with
  | nil => simp [insertOrUpdate]
  | cons e es ih =>
    by_cases h : e.key = k
    · simp only [insertOrUpdate, if_pos h, List.length_cons]
      omega
    · simp only [insertOrUpdate, if_neg h, List.length_cons]
      omega

theorem eraseKey_of_not_mem (k : CacheKey) :
    ∀ es : List CacheEntry, (∀ e ∈ es, e.key ≠ k) → eraseKey k es = es := by
  intro es
  induction es with
  | nil => intro; rfl
  | cons e es ih =>
    intro h
    have h₁ : e.key ≠ k := h e (by simp)
    simp only [eraseKey, List.filter_cons]
    simp [h₁]
    intro a ha
    exact h a (by simp [ha])

/-! ### C1: cache hits return the stored response unchanged; expiry misses -/

/-- A sample cache key for concrete witnesses. -/
def sampleKey : CacheKey := ⟨"p", "m", 2, 800, false⟩

/-- A sample non-trivial response: produced at instant 5 after 7 time
units of work. -/
def sampleResp : LLMResponse := ⟨"hi", "m", 5, 3, 7, false⟩

/-- C1 counterexample: a cache hit within the TTL returns the stored
response exactly as stored: its `processing_time` is still 7 (the claim
says hits report 0) and its `timestamp` is still 5, not refreshed to the
retrieval instant 10.  `InferenceCache.get` returns the cached object
itself, no copy and no field reset. -/
theorem cache_hit_keeps_original_fields :
    ((cacheGet (cacheSet ⟨10, 3600, []⟩ sampleKey sampleResp 0) sampleKey 10).1.map
        LLMResponse.processing_time = some 7 ∧ (7 : Nat) ≠ 0) ∧
    ((cacheGet (cacheSet ⟨10, 3600, []⟩ sampleKey sampleResp 0) sampleKey 10).1.map
        LLMResponse.timestamp = some 5 ∧ (5 : Nat) ≠ 10) := by
  decide

/-- C1 amended: for identical key components, a `get` within the TTL of a
`set` returns a response equal to the first — the stored object itself,
with its original `processing_time` and `timestamp` (not zeroed, not
refreshed, not copied) — and leaves the cache unchanged; once the TTL has
elapsed for the stored entry, `get` misses and deletes that entry. -/
theorem cache_hit_fresh_and_expiry_evicts (c : InferenceCache) (k : CacheKey)
    (r : LLMResponse) (t tq : Nat) :
    (tq - t < c.ttl →
      cacheGet (cacheSet c k r t) k tq = (some r, cacheSet c k r t)) ∧
    (∀ r₀ ts, lookupEntry k c.entries = some (r₀, ts) → c.ttl ≤ tq - ts →
      (cacheGet c k tq).1 = none ∧
      lookupEntry k (cacheGet c k tq).2.entries = none) := by
  constructor
  · intro hfresh
    have hl : lookupEntry k (cacheSet c k r t).entries = some (r, t) := by
      simp [cacheSet, lookupEntry_insertOrUpdate_self]
    have httl : (cacheSet c k r t).ttl = c.ttl := by simp [cacheSet]
    simp [cacheGet, hl, httl, hfresh]
  · intro r₀ ts hl hexp
    have hlt : ¬ (tq - ts < c.ttl) := by omega
    simp [cacheGet, hl, hlt, lookupEntry_eraseKey_self]

/-- Witness for `cache_hit_fresh_and_expiry_evicts` at a concrete cache. -/
theorem cache_hit_fresh_and_expiry_evicts_witness :
    (cacheGet (cacheSet ⟨10, 3600, []⟩ sampleKey sampleResp 0) sampleKey 10 =
      (some sampleResp, cacheSet ⟨10, 3600, []⟩ sampleKey sampleResp 0)) ∧
    ((cacheGet (cacheSet ⟨10, 3600, []⟩ sampleKey sampleResp 0) sampleKey 4000).1 = none ∧
      lookupEntry sampleKey
        (cacheGet (cacheSet ⟨10, 3600, []⟩ sampleKey sampleResp 0) sampleKey 4000).2.entries =
        none) :=
  ⟨(cache_hit_fresh_and_expiry_evicts ⟨10, 3600, []⟩ sampleKey sampleResp 0 10).1
      (by decide),
    (cache_hit_fresh_and_expiry_evicts
        (cacheSet ⟨10, 3600, []⟩ sampleKey sampleResp 0) sampleKey sampleResp 0 4000).2
      sampleResp 0 (by decide) (by decide)⟩

end CallAnalytics

namespace CallAnalytics

/-! ### C9: capacity bound and FIFO-by-age eviction -/

/-- Entries produced by inserting `ks` one per clock tick starting at `t`. -/
def stampFrom (r : LLMResponse) : Nat → List CacheKey → List CacheEntry
  | _, [] => []
  | t, k :: ks => ⟨k, r, t⟩ :: stampFrom r (t + 1) ks

/-- Insert each key of `ks` with `cacheSet`, one per clock tick from `t`. -/
def insertSeq (r : LLMResponse) : InferenceCache → Nat → List CacheKey → InferenceCache
  | c, _, [] => c
  | c, t, k :: ks => insertSeq r (cacheSet c k r t) (t + 1) ks

theorem length_stampFrom (r : LLMResponse) :
    ∀ (ks : List CacheKey) (t : Nat), (stampFrom r t ks).length = ks.length := by
  intro ks
  induction ks with
  | nil => intro t; rfl
  | cons k ks ih => intro t; simp [stampFrom, ih]

theorem keys_stampFrom (r : LLMResponse) :
    ∀ (ks : List CacheKey) (t : Nat), (stampFrom r t ks).map (·.key) = ks := by
  intro ks
  induction ks with
  | nil => intro t; rfl
  | cons k ks ih => intro t; simp [stampFrom, ih]

theorem time_le_of_mem_stampFrom (r : LLMResponse) :
    ∀ (ks : List CacheKey) (t : Nat) (e : CacheEntry),
      e ∈ stampFrom r t ks → t ≤ e.time := by
  intro ks
  induction ks with
  | nil => intro t e h; simp [stampFrom] at h
  | cons k ks ih =>
    intro t e h
    simp only [stampFrom, List.mem_cons] at h
    rcases h with h | h
    · subst h; exact Nat.le_refl t
    · exact Nat.le_of_succ_le (ih (t + 1) e h)

theorem lookupEntry_stampFrom_of_not_mem (r : LLMResponse) :
    ∀ (ks : List CacheKey) (t : Nat) (k : CacheKey),
      k ∉ ks → lookupEntry k (stampFrom r t ks) = none := by
  intro ks
  induction ks with
  | nil => intro t k _; rfl
  | cons k' ks ih =>
    intro t k h
    simp only [List.mem_cons, not_or] at h
    have : k' ≠ k := fun hc => h.1 hc.symm
    simp [stampFrom, lookupEntry, this, ih _ _ h.2]

theorem oldestAux_mem (best : CacheEntry) :
    ∀ es : List CacheEntry, oldestAux best es ∈ best :: es := by
  intro es
  induction es generalizing best with
  | nil => simp [oldestAux]
  | cons e es ih =>
    by_cases h : e.time < best.time
    · simp only [oldestAux, if_pos h]
      have := ih e
      simp only [List.mem_cons] at this ⊢
      tauto
    · simp only [oldestAux, if_neg h]
      have := ih best
      simp only [List.mem_cons] at this ⊢
      tauto

theorem oldestAux_of_min (best : CacheEntry) :
    ∀ es : List CacheEntry, (∀ e ∈ es, ¬ e.time < best.time) →
      oldestAux best es = best := by
  intro es
  induction es with
  | nil => intro; rfl
  | cons e es ih =>
    intro h
    have h₁ : ¬ e.time < best.time := h e (by simp)
    simp only [oldestAux, if_neg h₁]
    exact ih (fun x hx => h x (by simp [hx]))

theorem oldestEntry_stampFrom (r : LLMResponse) (k : CacheKey) (ks : List CacheKey)
    (t : Nat) : oldestEntry (stampFrom r t (k :: ks)) = some ⟨k, r, t⟩ := by
  simp only [stampFrom, oldestEntry, Option.some.injEq]
  apply oldestAux_of_min
  intro e he
  have := time_le_of_mem_stampFrom r ks (t + 1) e he
  simp only []
  omega

theorem insertSeq_append (r : LLMResponse) (l₁ l₂ : List CacheKey) :
    ∀ (c : InferenceCache) (t : Nat),
      insertSeq r c t (l₁ ++ l₂) = insertSeq r (insertSeq r c t l₁) (t + l₁.length) l₂ := by
  induction l₁ with
  | nil => intro c t; simp [insertSeq]
  | cons k ks ih =>
    intro c t
    calc insertSeq r c t ((k :: ks) ++ l₂)
        = insertSeq r (cacheSet c k r t) (t + 1) (ks ++ l₂) := rfl
      _ = insertSeq r (insertSeq r (cacheSet c k r t) (t + 1) ks)
            ((t + 1) + ks.length) l₂ := ih _ _
      _ = insertSeq r (insertSeq r c t (k :: ks)) (t + (k :: ks).length) l₂ := by
          have harg : (t + 1) + ks.length = t + (k :: ks).length := by
            have : (k :: ks).length = ks.length + 1 := rfl
            omega
          rw [harg]
          rfl

theorem insertSeq_fill (r : LLMResponse) :
    ∀ (ks : List CacheKey) (c : InferenceCache) (t : Nat),
      ks.Nodup → c.entries.length + ks.length ≤ c.maxSize →
      (∀ k ∈ ks, lookupEntry k c.entries = none) →
      insertSeq r c t ks = { c with entries := c.entries ++ stampFrom r t ks } := by
  intro ks
  induction ks with
  | nil => intro c t _ _ _; simp [insertSeq, stampFrom]
  | cons k ks ih =>
    intro c t hnd hlen habs
    have hklen : c.entries.length < c.maxSize := by
      simp only [List.length_cons] at hlen; omega
    have hset : cacheSet c k r t = { c with entries := c.entries ++ [⟨k, r, t⟩] } := by
      simp only [cacheSet]
      rw [if_neg (by omega)]
      rw [insertOrUpdate_of_absent k r t c.entries (habs k (by simp))]
    simp only [insertSeq, hset]
    rw [ih]
    · simp only [stampFrom, List.append_assoc, List.cons_append, List.nil_append]
    · exact (List.nodup_cons.mp hnd).2
    · simp only [List.length_append, List.length_cons, List.length_nil] at hlen ⊢
      omega
    · intro k' hk'
      rw [lookupEntry_append]
      have hne : (⟨k, r, t⟩ : CacheEntry).key ≠ k' := by
        have := (List.nodup_cons.mp hnd).1
        intro hc
        simp only [] at hc
        exact this (hc ▸ hk')
      rw [habs k' (by simp [hk'])]
      simp [lookupEntry, hne]

/-- C9: (a) `InferenceCache.set` never grows the cache past `max_size`
(for any positive capacity); (b) inserting `max_size + 1` distinct keys
into an empty cache, one per clock tick, leaves exactly `max_size`
entries whose keys are precisely all but the oldest-inserted key — the
eviction removed exactly the single globally-oldest entry. -/
theorem cache_capacity_and_fifo_eviction :
    (∀ (c : InferenceCache) (k : CacheKey) (r : LLMResponse) (t : Nat),
      1 ≤ c.maxSize → c.entries.length ≤ c.maxSize →
      (cacheSet c k r t).entries.length ≤ c.maxSize) ∧
    (∀ (maxSize ttl : Nat) (k₀ : CacheKey) (rest : List CacheKey) (r : LLMResponse),
      1 ≤ maxSize → (k₀ :: rest).Nodup → rest.length = maxSize →
      (insertSeq r ⟨maxSize, ttl, []⟩ 0 (k₀ :: rest)).entries.length = maxSize ∧
      cacheKeys (insertSeq r ⟨maxSize, ttl, []⟩ 0 (k₀ :: rest)) = rest ∧
      k₀ ∉ cacheKeys (insertSeq r ⟨maxSize, ttl, []⟩ 0 (k₀ :: rest))) := by
  constructor
  · intro c k r t h1 hle
    simp only [cacheSet]
    by_cases hcap : c.maxSize ≤ c.entries.length
    · rw [if_pos hcap]
      match hes : c.entries with
      | [] => simp [hes] at hcap; omega
      | e :: es =>
        simp only [oldestEntry]
        have hmem : oldestAux e es ∈ e :: es := oldestAux_mem e es
        have hdrop : (eraseKey (oldestAux e es).key (e :: es)).length < (e :: es).length := by
          simp only [eraseKey]
          rw [List.length_filter_lt_length_iff_exists]
          exact ⟨oldestAux e es, hmem, by simp⟩
        calc (insertOrUpdate k r t (eraseKey (oldestAux e es).key (e :: es))).length
            ≤ (eraseKey (oldestAux e es).key (e :: es)).length + 1 :=
              length_insertOrUpdate_le _ _ _ _
          _ ≤ (e :: es).length := by omega
          _ ≤ c.maxSize := by rw [← hes]; exact hle
    · rw [if_neg hcap]
      calc (insertOrUpdate k r t c.entries).length ≤ c.entries.length + 1 :=
            length_insertOrUpdate_le _ _ _ _
        _ ≤ c.maxSize := by omega
  · intro maxSize ttl k₀ rest r h1 hnd hlen
    have hne : rest ≠ [] := by
      intro h; rw [h] at hlen; simp at hlen; omega
    have hsplit : rest.dropLast ++ [rest.getLast hne] = rest :=
      List.dropLast_append_getLast hne
    have hk₀ : k₀ ∉ rest := (List.nodup_cons.mp hnd).1
    have hrest : rest.Nodup := (List.nodup_cons.mp hnd).2
    have hinitnd : rest.dropLast.Nodup ∧ rest.getLast hne ∉ rest.dropLast := by
      have := hsplit ▸ hrest
      rw [List.nodup_append] at this
      refine ⟨this.1, fun hc => ?_⟩
      exact this.2.2 hc (by simp)
    have hk₀init : k₀ ∉ rest.dropLast := fun hc =>
      hk₀ (List.dropLast_subset rest hc)
    have hinitlen : rest.dropLast.length = maxSize - 1 := by
      rw [List.length_dropLast, hlen]
    have hfull : k₀ :: rest = (k₀ :: rest.dropLast) ++ [rest.getLast hne] := by
      rw [List.cons_append, hsplit]
    rw [hfull, insertSeq_append]
    have hfill := insertSeq_fill r (k₀ :: rest.dropLast) ⟨maxSize, ttl, []⟩ 0
      (by
        rw [List.nodup_cons]
        exact ⟨hk₀init, hinitnd.1⟩)
      (by simp [hinitlen]; omega)
      (fun k _ => rfl)
    rw [hfill]
    simp only [List.nil_append, List.length_cons]
    have hstamplen : (stampFrom r 0 (k₀ :: rest.dropLast)).length = maxSize := by
      rw [length_stampFrom]; simp [hinitlen]; omega
    simp only [insertSeq]
    set klast := rest.getLast hne with hklast
    have hcset :
        cacheSet ⟨maxSize, ttl, stampFrom r 0 (k₀ :: rest.dropLast)⟩ klast r
            (0 + (rest.dropLast.length + 1)) =
          ⟨maxSize, ttl,
            stampFrom r 1 rest.dropLast ++
              [⟨klast, r, 0 + (rest.dropLast.length + 1)⟩]⟩ := by
      simp only [cacheSet]
      rw [if_pos (by rw [hstamplen])]
      rw [oldestEntry_stampFrom]
      dsimp only
      have herase :
          eraseKey k₀ (stampFrom r 0 (k₀ :: rest.dropLast)) =
            stampFrom r 1 rest.dropLast := by
        have hkeys : ∀ e ∈ stampFrom r 1 rest.dropLast, e.key ≠ k₀ := by
          intro e he hc
          have hm : e.key ∈ (stampFrom r 1 rest.dropLast).map (·.key) :=
            List.mem_map_of_mem _ he
          rw [keys_stampFrom] at hm
          exact hk₀init (hc ▸ hm)
        have h2 := eraseKey_of_not_mem k₀ (stampFrom r 1 rest.dropLast) hkeys
        simp only [stampFrom, eraseKey, List.filter_cons]
        simp only [eraseKey] at h2
        simp [h2]
        exact fun a ha => hkeys a ha
      rw [herase]
      rw [insertOrUpdate_of_absent _ _ _ _
        (lookupEntry_stampFrom_of_not_mem r rest.dropLast 1 klast hinitnd.2)]
    rw [hcset]
    refine ⟨?_, ?_, ?_⟩
    · simp only [List.length_append, List.length_singleton, length_stampFrom]
      omega
    · simp only [cacheKeys, List.map_append, keys_stampFrom, List.map_cons,
        List.map_nil]
      exact hsplit
    · simp only [cacheKeys, List.map_append, keys_stampFrom, List.map_cons,
        List.map_nil]
      rw [hsplit]
      exact hk₀

/-- Witness for `cache_capacity_and_fifo_eviction`: capacity 2, three
distinct keys; the first-inserted key is gone, the later two remain. -/
theorem cache_capacity_and_fifo_eviction_witness :
    ((cacheSet ⟨2, 3600, []⟩ sampleKey sampleResp 0).entries.length ≤ 2) ∧
    ((insertSeq sampleResp ⟨2, 3600, []⟩ 0
        [⟨"a", "m", 2, 800, false⟩, ⟨"b", "m", 2, 800, false⟩,
          ⟨"c", "m", 2, 800, false⟩]).entries.length = 2 ∧
      cacheKeys (insertSeq sampleResp ⟨2, 3600, []⟩ 0
        [⟨"a", "m", 2, 800, false⟩, ⟨"b", "m", 2, 800, false⟩,
          ⟨"c", "m", 2, 800, false⟩]) =
        [⟨"b", "m", 2, 800, false⟩, ⟨"c", "m", 2, 800, false⟩] ∧
      (⟨"a", "m", 2, 800, false⟩ : CacheKey) ∉
        cacheKeys (insertSeq sampleResp ⟨2, 3600, []⟩ 0
          [⟨"a", "m", 2, 800, false⟩, ⟨"b", "m", 2, 800, false⟩,
            ⟨"c", "m", 2, 800, false⟩])) :=
  ⟨cache_capacity_and_fifo_eviction.1 ⟨2, 3600, []⟩ sampleKey sampleResp 0
      (by decide) (by decide),
    cache_capacity_and_fifo_eviction.2 2 3600 ⟨"a", "m", 2, 800, false⟩
      [⟨"b", "m", 2, 800, false⟩, ⟨"c", "m", 2, 800, false⟩] sampleResp
      (by decide) (by decide) (by decide)⟩

end CallAnalytics

namespace CallAnalytics

/-! ### C10: the 404 model-fallback path calls `InferenceCache.set` with
five arguments instead of six (ollama_service.py:474), so Python raises a
`TypeError` which `generate_response` re-raises (ollama_service.py:486-488)
instead of returning the successfully generated fallback response. -/

/-- A Python value as passed to `InferenceCache.set`. -/
inductive PyVal where
  | vStr : String → PyVal
  | vInt : Int → PyVal
  | vNat : Nat → PyVal
  | vBool : Bool → PyVal
  | vResp : LLMResponse → PyVal
  deriving Repr, DecidableEq

/-- The required positional parameters of `InferenceCache.set` after
`self` (ollama_service.py:69). -/
def cacheSetParams : List String :=
  ["prompt", "model", "temperature", "max_tokens", "classifications_available",
    "response"]

/-- Python positional-argument binding: every required parameter must
receive exactly one argument, otherwise the call raises `TypeError`. -/
def bindPositionalArgs (params : List String) (args : List PyVal) :
    Except String (List (String × PyVal)) :=
  if args.length = params.length then .ok (params.zip args)
  else .error "TypeError"

/-- Arguments of the well-formed `set` call on the primary 200 path
(ollama_service.py:423): six positional arguments. -/
def primaryCacheSetArgs (fullPrompt modelName : String) (temp : Int)
    (maxTok : Nat) (classificationsAvailable : Bool) (resp : LLMResponse) :
    List PyVal :=
  [.vStr fullPrompt, .vStr modelName, .vInt temp, .vNat maxTok,
    .vBool classificationsAvailable, .vResp resp]

/-- Arguments of the `set` call on the 404 model-fallback path
(ollama_service.py:474): only five positional arguments — the response
object lands in the `classifications_available` slot and the required
`response` parameter receives nothing. -/
def fallbackCacheSetArgs (fullPrompt defaultModel : String) (temp : Int)
    (maxTok : Nat) (resp : LLMResponse) : List PyVal :=
  [.vStr fullPrompt, .vStr defaultModel, .vInt temp, .vNat maxTok, .vResp resp]

/-- Outcome of `OllamaService.generate_response`. -/
inductive GenOutcome where
  | ok : LLMResponse → GenOutcome
  | raised : String → GenOutcome
  deriving Repr, DecidableEq

/-- The tail of the 404 model-fallback path of
`OllamaService.generate_response` (ollama_service.py:426-479), entered
after the primary model answered HTTP 404 and the fallback model call
answered HTTP 200 with response object `fallbackResp`: if the cache is
enabled the five-argument `set` call runs (and any exception it raises
propagates through the re-raising handler at lines 486-488); otherwise
the fallback response is returned. -/
def fallbackPathResult (cacheEnabled : Bool) (fullPrompt defaultModel : String)
    (temp : Int) (maxTok : Nat) (fallbackResp : LLMResponse) : GenOutcome :=
  if cacheEnabled then
    match bindPositionalArgs cacheSetParams
        (fallbackCacheSetArgs fullPrompt defaultModel temp maxTok fallbackResp) with
    | .ok _ => .ok fallbackResp
    | .error e => .raised e
  else .ok fallbackResp

/-- C10: with the inference cache enabled, the 404 model-fallback path of
`generate_response` raises `TypeError` from the five-argument
`InferenceCache.set` call and never returns the successfully generated
fallback response — while the six-argument `set` call on the primary path
binds its parameters fine, showing the arity model is not rigged. -/
theorem fallback_path_cache_set_arity_error (fullPrompt defaultModel : String)
    (temp : Int) (maxTok : Nat) (ca : Bool) (fallbackResp : LLMResponse)
    (cacheEnabled : Bool) (h : cacheEnabled = true) :
    fallbackPathResult cacheEnabled fullPrompt defaultModel temp maxTok
        fallbackResp = .raised "TypeError" ∧
    fallbackPathResult cacheEnabled fullPrompt defaultModel temp maxTok
        fallbackResp ≠ .ok fallbackResp ∧
    (bindPositionalArgs cacheSetParams
        (primaryCacheSetArgs fullPrompt defaultModel temp maxTok ca
          fallbackResp)).isOk = true := by
  subst h
  refine ⟨rfl, by simp [fallbackPathResult, bindPositionalArgs,
    fallbackCacheSetArgs, cacheSetParams], rfl⟩

/-- Witness for `fallback_path_cache_set_arity_error` at concrete inputs. -/
theorem fallback_path_cache_set_arity_error_witness :
    fallbackPathResult true "p" "dictalm-fast" 2 800 sampleResp =
        .raised "TypeError" ∧
    fallbackPathResult true "p" "dictalm-fast" 2 800 sampleResp ≠
        .ok sampleResp ∧
    (bindPositionalArgs cacheSetParams
        (primaryCacheSetArgs "p" "dictalm-fast" 2 800 false sampleResp)).isOk =
        true :=
  fallback_path_cache_set_arity_error "p" "dictalm-fast" 2 800 false sampleResp
    true rfl

end CallAnalytics

namespace CallAnalytics

/-! ### C2: complexity scoring and timeouts (`llm_orchestrator.py`) -/

/-- Python substring test `pat in hay` on character lists. -/
def containsSub : List Char → List Char → Bool
  | [], pat => pat.isEmpty
  | c :: rest, pat => pat.isPrefixOf (c :: rest) || containsSub rest pat

/-- `any(pattern in prompt_clean for pattern in pats)`. -/
def anyPatternIn (pats : List String) (cs : List Char) : Bool :=
  pats.any (fun p => containsSub cs p.data)

/-- Whitespace trim of both ends (Python `str.strip()`). -/
def trimChars (cs : List Char) : List Char :=
  ((cs.dropWhile Char.isWhitespace).reverse.dropWhile Char.isWhitespace).reverse

/-- `prompt.strip().lower()` (llm_orchestrator.py:57). -/
def promptClean (s : String) : List Char :=
  (trimChars s.data).map Char.toLower

/-- Keyword tables of `_analyze_query_complexity` (llm_orchestrator.py:60-75). -/
def simplePatterns : List String :=
  ["כמה", "מספר", "how many", "total", "count", "סך הכל", "בסך הכל"]

def greetingPatterns : List String :=
  ["שלום", "הי", "hello", "hi", "מה שלומך", "how are you"]

def mediumKeywords : List String :=
  ["הצג", "show", "display", "list", "רשימה", "מי", "who", "מה", "what"]

def complexKeywords : List String :=
  ["נתח", "ניתוח", "analyze", "analysis", "סיכום", "סכם", "summary",
    "summarize", "דוח", "report", "תובנות", "insights", "השווה", "compare",
    "מגמות", "trends"]

/-- `LLMOrchestrator._analyze_query_complexity` (llm_orchestrator.py:53-85):
keyword heuristics with a text-length fallback.  The float scores
0.5 / 1.0 / 1.5 / 2.0 / 2.5 are exact half-integers, represented here in
units of one half (1 / 2 / 3 / 4 / 5), which preserves all comparisons
performed on them. -/
def analyzeQueryComplexity (prompt : String) : Nat :=
  let pc := promptClean prompt
  if anyPatternIn simplePatterns pc then 2
  else if anyPatternIn greetingPatterns pc then 1
  else if anyPatternIn mediumKeywords pc then 3
  else if anyPatternIn complexKeywords pc then 5
  else if pc.length ≤ 30 then 2
  else if pc.length ≤ 80 then 3
  else 4

/-- `LLMOrchestrator._calculate_adaptive_timeout` (llm_orchestrator.py:87-107):
the score argument is in units of one half (so `5 ≤` is the source's
`>= 2.5` etc.), and `int(...)` on a positive float is truncation, i.e.
`Nat` division here (`int(base * 2.5) = (base * 5) / 2`,
`int(base * 2.0) = base * 2`, `int(base * 1.5) = (base * 3) / 2`). -/
def calculateAdaptiveTimeout (base : Nat) (scoreHalves : Nat) : Nat :=
  if 5 ≤ scoreHalves then (base * 5) / 2
  else if 4 ≤ scoreHalves then base * 2
  else if 3 ≤ scoreHalves then (base * 3) / 2
  else base

/-- `self._timeouts['ollama_timeout']` — `OLLAMA_TIMEOUT` env, default 15
(llm_orchestrator.py:35). -/
def baseOllamaTimeout (env : Option Nat) : Nat := env.getD 15

/-- `fixed_timeout` read inside `generate_response` — `OLLAMA_TIMEOUT`
env, default 40 (llm_orchestrator.py:179). -/
def fixedGenerateTimeout (env : Option Nat) : Nat := env.getD 40

/-- The timeout that `generate_response` actually wraps around the Ollama
adapter call (`asyncio.wait_for(..., timeout=fixed_timeout)`,
llm_orchestrator.py:210-219): the fixed env timeout, for every prompt.
The adaptive-timeout machinery is never consulted on this path. -/
def effectiveBackendTimeout (env : Option Nat) (_prompt : String) : Nat :=
  fixedGenerateTimeout env

/-- C2 counterexample: for the prompt "show" (tier 2, score 1.5, by the
`show` keyword), the claim predicts an effective timeout of
base × 1.5 = 22 (with the default base of 15), but `generate_response`
wraps the adapter call in the fixed default timeout 40. -/
theorem generate_timeout_not_adaptive :
    analyzeQueryComplexity "show" = 3 ∧
    calculateAdaptiveTimeout (baseOllamaTimeout none)
      (analyzeQueryComplexity "show") = 22 ∧
    effectiveBackendTimeout none "show" = 40 ∧ (40 : Nat) ≠ 22 := by
  refine ⟨by decide, by decide, rfl, by decide⟩

/-- C2 amended: `_calculate_adaptive_timeout` does implement the tier →
multiplier table 1.0× / 1.5× / 2.0× / 2.5× over the four complexity
scores that `_analyze_query_complexity` can produce, but
`generate_response` never uses it: the timeout applied to the backend
call is the fixed `OLLAMA_TIMEOUT` env value (default 40), identical for
every prompt. -/
theorem adaptive_table_exists_but_generate_uses_fixed_timeout
    (env : Option Nat) (prompt : String) (base : Nat) :
    effectiveBackendTimeout env prompt = env.getD 40 ∧
    analyzeQueryComplexity prompt ∈ [1, 2, 3, 4, 5] ∧
    calculateAdaptiveTimeout base 1 = base ∧
    calculateAdaptiveTimeout base 2 = base ∧
    calculateAdaptiveTimeout base 3 = (base * 3) / 2 ∧
    calculateAdaptiveTimeout base 4 = base * 2 ∧
    calculateAdaptiveTimeout base 5 = (base * 5) / 2 := by
  refine ⟨rfl, ?_, ?_, ?_, ?_, ?_, ?_⟩
  · unfold analyzeQueryComplexity
    dsimp only
    split_ifs <;> simp
  all_goals
    norm_num [calculateAdaptiveTimeout]

/-! ### C7: language routing (`llm_orchestrator.py:176-194`,
`ollama_service.py:350-352`) -/

/-- Hebrew-script detection: any codepoint in U+0590–U+05FF
(llm_orchestrator.py:176). -/
def hasHebrewChar (s : String) : Bool :=
  s.data.any (fun c => decide (0x590 ≤ c.toNat ∧ c.toNat ≤ 0x5FF))

/-- `self._model_cache['hebrew_model']` (llm_orchestrator.py:28). -/
def modelCacheHebrewModel : String := "dictalm2.0-instruct:Q4_K_M"

/-- `self._model_cache['english_model']` (llm_orchestrator.py:29) — the
same DictaLM identifier as the Hebrew-tuned model. -/
def modelCacheEnglishModel : String := "dictalm2.0-instruct:Q4_K_M"

/-- `selected_model` (llm_orchestrator.py:182). -/
def selectedModel (prompt : String) : String :=
  if hasHebrewChar prompt then modelCacheHebrewModel else modelCacheEnglishModel

/-- `services_to_try` (llm_orchestrator.py:184-194): both branches of the
Hebrew test append the same single `('ollama', selected_model)` entry. -/
def servicesToTry (useOllamaForHebrew : Bool) (prompt : String) :
    List (String × String) :=
  if hasHebrewChar prompt && useOllamaForHebrew then
    [("ollama", selectedModel prompt)]
  else
    [("ollama", selectedModel prompt)]

/-- `model_name = self.hebrew_model` (ollama_service.py:350-352): the
Ollama adapter ignores its `model` argument and always uses
`self.hebrew_model` (`HEBREW_MODEL` env, default `dictalm-fast`). -/
def ollamaServiceModelName (hebrewModelEnv : Option String)
    (_modelArg : Option String) : String :=
  hebrewModelEnv.getD "dictalm-fast"

/-- C7 counterexample: the pure-ASCII prompt "hello" contains no
U+0590–U+05FF character, yet it is routed to exactly the Hebrew-tuned
model — the claim that an ASCII prompt is *not* routed to the
Hebrew-tuned model fails because the english/default entry holds the very
same DictaLM identifier. -/
theorem ascii_prompt_routed_to_hebrew_model :
    hasHebrewChar "hello" = false ∧
    selectedModel "hello" = modelCacheHebrewModel ∧
    servicesToTry true "hello" = [("ollama", modelCacheHebrewModel)] := by
  refine ⟨by decide, by decide, by decide⟩

/-- C7 amended: every prompt — Hebrew or pure ASCII — is routed to the
single `('ollama', DictaLM)` candidate with the same model identifier,
which is the Hebrew-tuned model; so Hebrew prompts do reach the
Hebrew-tuned model, but ASCII prompts reach it as well, and the Ollama
adapter additionally ignores its model argument, using `self.hebrew_model`
for every request. -/
theorem every_prompt_routes_to_dictalm (prompt : String)
    (useHeb : Bool) (env : Option String) (m₁ m₂ : Option String) :
    selectedModel prompt = modelCacheHebrewModel ∧
    servicesToTry useHeb prompt = [("ollama", modelCacheHebrewModel)] ∧
    ollamaServiceModelName env m₁ = ollamaServiceModelName env m₂ := by
  refine ⟨?_, ?_, rfl⟩
  · unfold selectedModel modelCacheHebrewModel modelCacheEnglishModel
    split_ifs <;> rfl
  · unfold servicesToTry selectedModel modelCacheHebrewModel modelCacheEnglishModel
    split_ifs <;> rfl

end CallAnalytics

namespace CallAnalytics

/-! ### C8: `WeaviateService.add_transcription` retry loop
(weaviate_service.py:242-271) -/

/-- Outcome of one POST to `/v1/objects`: an HTTP status, or an
`aiohttp.ClientError` (connection failure). -/
inductive HttpAttempt where
  | status : Nat → HttpAttempt
  | connError : HttpAttempt
  deriving Repr, DecidableEq

/-- The `for attempt in range(max_retries)` body: `fuel` is the number of
attempts still allowed (`fuel = 1` on the last attempt, i.e.
`attempt == max_retries - 1`); the triple is (returned value, attempts
performed, `asyncio.sleep(1)` backoffs performed — the sleep sits only in
the `ClientError` branch). -/
def addTranscriptionLoop (o : Nat → HttpAttempt) :
    Nat → Nat → Nat → Bool × Nat × Nat
  | attempt, 0, sleeps => (false, attempt, sleeps)
  | attempt, fuel + 1, sleeps =>
    match o attempt with
    | .status code =>
      if code = 200 then (true, attempt + 1, sleeps)
      else if fuel = 0 then (false, attempt + 1, sleeps)
      else addTranscriptionLoop o (attempt + 1) fuel sleeps
    | .connError =>
      if fuel = 0 then (false, attempt + 1, sleeps)
      else addTranscriptionLoop o (attempt + 1) fuel (sleeps + 1)

/-- `max_retries = 3` (weaviate_service.py:243). -/
def weaviateMaxRetries : Nat := 3

/-- `WeaviateService.add_transcription`, with the per-attempt HTTP
outcome supplied as an oracle. -/
def addTranscription (o : Nat → HttpAttempt) : Bool × Nat × Nat :=
  addTranscriptionLoop o 0 weaviateMaxRetries 0

/-- C8 counterexample: a backend that always answers HTTP 400 (a
permanent 4xx error) is retried — `add_transcription` performs all 3
attempts, not the 1 attempt the claim's "fail immediately without any
retry" requires.  Non-200 statuses take the same retry path as connection
errors (just without the backoff sleep). -/
theorem insert_4xx_is_retried :
    addTranscription (fun _ => .status 400) = (false, 3, 0) ∧ (3 : Nat) ≠ 1 :=
  ⟨rfl, by decide⟩

/-- C8 amended: `add_transcription` retries transient connection errors
up to the fixed bound of 3 attempts with a 1-second backoff between
attempts and reports failure once the bound is exhausted; a permanent
(4xx-equivalent) non-200 status is retried in exactly the same way — also
3 attempts before failure, only without the backoff — and a 200 on the
first attempt returns success immediately. -/
theorem add_transcription_retry_policy (o : Nat → HttpAttempt) :
    ((∀ i, i < 3 → o i = .connError) → addTranscription o = (false, 3, 2)) ∧
    ((∀ i, i < 3 → ∃ c, o i = .status c ∧ c ≠ 200) →
      addTranscription o = (false, 3, 0)) ∧
    (o 0 = .status 200 → addTranscription o = (true, 1, 0)) := by
  refine ⟨?_, ?_, ?_⟩
  · intro h
    have h0 := h 0 (by omega)
    have h1 := h 1 (by omega)
    have h2 := h 2 (by omega)
    simp [addTranscription, weaviateMaxRetries, addTranscriptionLoop, h0, h1, h2]
  · intro h
    obtain ⟨c0, hc0, hn0⟩ := h 0 (by omega)
    obtain ⟨c1, hc1, hn1⟩ := h 1 (by omega)
    obtain ⟨c2, hc2, hn2⟩ := h 2 (by omega)
    simp [addTranscription, weaviateMaxRetries, addTranscriptionLoop, hc0, hc1,
      hc2, hn0, hn1, hn2]
  · intro h
    simp [addTranscription, weaviateMaxRetries, addTranscriptionLoop, h]

/-- Witness for `add_transcription_retry_policy` at three concrete
backends. -/
theorem add_transcription_retry_policy_witness :
    addTranscription (fun _ => .connError) = (false, 3, 2) ∧
    addTranscription (fun _ => .status 404) = (false, 3, 0) ∧
    addTranscription (fun _ => .status 200) = (true, 1, 0) :=
  ⟨(add_transcription_retry_policy (fun _ => .connError)).1 (fun _ _ => rfl),
    (add_transcription_retry_policy (fun _ => .status 404)).2.1
      (fun _ _ => ⟨404, rfl, by decide⟩),
    (add_transcription_retry_policy (fun _ => .status 200)).2.2 rfl⟩

/-! ### C6: `summarize_call` total-failure fallback
(llm_orchestrator.py:308-377, ollama_service.py:721-727) -/

/-- The deterministic fallback summary object built by
`LLMOrchestrator.summarize_call` when all LLM services failed
(llm_orchestrator.py:366-374). -/
structure FallbackSummary where
  summary : String
  key_points : List String
  sentiment : String
  products_mentioned : List String
  action_items : List String
  customer_satisfaction : String
  issue_resolved : Bool
  deriving Repr, DecidableEq

/-- Result dict of `LLMOrchestrator.summarize_call`; `payload` is the
parsed structured summary of the success case (opaque here). -/
structure SummarizeResult where
  success : Bool
  errorMsg : Option String
  fallback_summary : Option FallbackSummary
  service : Option String
  payload : Option String
  deriving Repr, DecidableEq

/-- Outcome of `ollama_service.summarize_call` as observed by the
orchestrator.  For expected failure modes the Ollama service never
raises: its whole body runs inside `try/except Exception` and returns a
`success: False` dict (ollama_service.py:721-727), so the orchestrator's
exception handler is not exercised by backend failures. -/
inductive OllamaSummOutcome where
  | succeeded : String → OllamaSummOutcome
  | failed : String → OllamaSummOutcome
  deriving Repr, DecidableEq

/-- `transcription[:200] + "..." if len(transcription) > 200 else
transcription` (Python slices by code points, as does `String.take`). -/
def truncatedTranscript (t : String) : String :=
  if 200 < t.length then t.take 200 ++ "..." else t

/-- The all-methods-failed return value of `LLMOrchestrator.summarize_call`
(llm_orchestrator.py:363-377). -/
def orchestratorFallbackResult (t : String) : SummarizeResult where
  success := false
  errorMsg := some "All LLM services failed"
  fallback_summary := some
    { summary := truncatedTranscript t
      key_points := ["Call transcription available"]
      sentiment := "neutral"
      products_mentioned := []
      action_items := ["Manual review required"]
      customer_satisfaction := "unknown"
      issue_resolved := false }
  service := some "fallback"
  payload := none

/-- `LLMOrchestrator.summarize_call` (llm_orchestrator.py:308-377): on a
successful Ollama result it is returned with `service='ollama'`; a failed
result (or `prefer_local=False`) falls through to the deterministic
fallback object — no exception escapes. -/
def orchestratorSummarizeCall (preferLocal : Bool) (t : String)
    (o : OllamaSummOutcome) : SummarizeResult :=
  if preferLocal then
    match o with
    | .succeeded p =>
      { success := true, errorMsg := none, fallback_summary := none,
        service := some "ollama", payload := some p }
    | .failed _ => orchestratorFallbackResult t
  else orchestratorFallbackResult t

/-- The failure dict of `OllamaService.summarize_call`
(ollama_service.py:723-727), whose `fallback_summary` is the truncated
transcription string itself. -/
structure OllamaSummFailure where
  success : Bool
  errorMsg : String
  fallback_summary : String
  deriving Repr, DecidableEq

/-- `return {'success': False, 'error': str(e), 'fallback_summary': ...}`
(ollama_service.py:721-727). -/
def ollamaSummarizeOnError (t e : String) : OllamaSummFailure :=
  ⟨false, e, if 200 < t.length then t.take 200 ++ "..." else t⟩

/-- C6: when every backend attempt fails or returns failure,
`summarize_call` (both at the orchestrator and at the Ollama service)
returns — never raises — an object with `success = false` whose fallback
summary text is the first 200 characters of the transcription followed by
an ellipsis when the transcription exceeds 200 characters, and the whole
transcription otherwise. -/
theorem summarize_call_total_failure_fallback (preferLocal : Bool)
    (t e : String) :
    (orchestratorSummarizeCall preferLocal t (.failed e)).success = false ∧
    ((orchestratorSummarizeCall preferLocal t (.failed e)).fallback_summary.map
        FallbackSummary.summary) =
      some (if 200 < t.length then t.take 200 ++ "..." else t) ∧
    (ollamaSummarizeOnError t e).success = false ∧
    (ollamaSummarizeOnError t e).fallback_summary =
      (if 200 < t.length then t.take 200 ++ "..." else t) := by
  cases preferLocal <;>
    simp [orchestratorSummarizeCall, orchestratorFallbackResult,
      truncatedTranscript, ollamaSummarizeOnError]

/-! ### C5: `MLPipeline.process_call` partial-success accumulation
(ml_pipeline.py:61-259) -/

/-- Value stored under a stage name in the `results` dict. -/
inductive StageData where
  | okData
  | errData : String → StageData
  | fallbackData
  deriving Repr, DecidableEq

/-- Per-stage backend outcomes, as observed by the per-stage
`try/except` blocks of `process_call`. -/
inductive EmbedOutcome where
  | ok : Nat → EmbedOutcome
  | exc : String → EmbedOutcome
  deriving Repr, DecidableEq

inductive LLMTaskOutcome where
  | ok
  | failedResult : String → LLMTaskOutcome
  | exc : String → LLMTaskOutcome
  deriving Repr, DecidableEq

inductive VectorOutcome where
  | ok
  | returnedFalse
  | exc : String → VectorOutcome
  deriving Repr, DecidableEq

/-- `ProcessingResult` dataclass (ml_pipeline.py:26-32); processing_time
is not inspected by any claim. -/
structure ProcessingResult where
  success : Bool
  call_id : String
  results : List (String × StageData)
  errors : List String
  deriving Repr, DecidableEq

/-- `success = len(errors) == 0 or len(results) > len(errors)`
(ml_pipeline.py:251). -/
def successFlag (results : List (String × StageData)) (errors : List String) :
    Bool :=
  errors.isEmpty || decide (errors.length < results.length)

/-- `MLPipeline.process_call` (ml_pipeline.py:61-259) over per-stage
outcome oracles.  Every stage failure is caught inside the stage: the
embedding and LLM tasks return an `('name', {...})` tuple even on error
(so the `results` dict gains an entry for a failed stage too), the
vector-storage block records both an error and a `results` entry, and the
product-analysis step — whose `entities` input is always `{}` because no
stage ever writes a `'preprocessing'` key — cannot fail.  `errors` is
accumulated in stage order. -/
def processCall (enableEmb enableLLM enableVec : Bool)
    (callId transcription : String) (eo : EmbedOutcome) (lo : LLMTaskOutcome)
    (vo : VectorOutcome) : ProcessingResult :=
  let embPart : List (String × StageData) × List String :=
    if enableEmb && !transcription.isEmpty then
      match eo with
      | .ok _ => ([("embedding", .okData)], [])
      | .exc m =>
        ([("embedding", .errData ("Embedding generation failed: " ++ m))],
          ["Embedding generation failed: " ++ m])
    else ([], [])
  let llmPart : List (String × StageData) × List String :=
    if enableLLM && !transcription.isEmpty then
      match lo with
      | .ok => ([("llm_analysis", .okData)], [])
      | .failedResult e =>
        ([("llm_analysis", .fallbackData)], ["LLM analysis failed: " ++ e])
      | .exc m =>
        ([("llm_analysis", .errData ("LLM processing failed: " ++ m))],
          ["LLM processing failed: " ++ m])
    else ([], [])
  let vecPart : List (String × StageData) × List String :=
    if enableVec && !transcription.isEmpty then
      match vo with
      | .ok => ([("vector_storage", .okData)], [])
      | .returnedFalse =>
        ([("vector_storage",
            .errData ("Vector storage failed for call " ++ callId))],
          ["Vector storage failed for call " ++ callId])
      | .exc m =>
        ([("vector_storage",
            .errData ("Vector storage error for call " ++ callId ++ ": " ++ m))],
          ["Vector storage error for call " ++ callId ++ ": " ++ m])
    else ([], [])
  let prodPart : List (String × StageData) × List String :=
    if !transcription.isEmpty then ([("product_analysis", .okData)], [])
    else ([], [])
  let results := embPart.1 ++ llmPart.1 ++ vecPart.1 ++ prodPart.1
  let errors := embPart.2 ++ llmPart.2 ++ vecPart.2 ++ prodPart.2
  { success := successFlag results errors
    call_id := callId
    results := results
    errors := errors }

theorem successFlag_eq_true_iff (results : List (String × StageData))
    (errors : List String) :
    successFlag results errors = true ↔
      (errors = [] ∨ errors.length < results.length) := by
  simp [successFlag, List.isEmpty_iff]

/-- C5: `process_call` reports `success = true` exactly when the errors
list is empty or the results map holds strictly more entries than the
errors list; in particular a call whose embedding stage raises while the
LLM stage and the vector-store write succeed yields `success = true` with
exactly one error entry (the failed embedding stage still contributes a
`results` entry, so 4 results outnumber 1 error). -/
theorem process_call_success_formula (enableEmb enableLLM enableVec : Bool)
    (callId transcription : String) (eo : EmbedOutcome) (lo : LLMTaskOutcome)
    (vo : VectorOutcome) :
    ((processCall enableEmb enableLLM enableVec callId transcription eo lo
        vo).success = true ↔
      ((processCall enableEmb enableLLM enableVec callId transcription eo lo
          vo).errors = [] ∨
        (processCall enableEmb enableLLM enableVec callId transcription eo lo
            vo).errors.length <
          (processCall enableEmb enableLLM enableVec callId transcription eo lo
              vo).results.length)) ∧
    (enableEmb = true → enableLLM = true → enableVec = true →
      transcription.isEmpty = false → ∀ m, eo = .exc m → lo = .ok → vo = .ok →
      (processCall enableEmb enableLLM enableVec callId transcription eo lo
          vo).success = true ∧
      (processCall enableEmb enableLLM enableVec callId transcription eo lo
          vo).errors.length = 1 ∧
      (processCall enableEmb enableLLM enableVec callId transcription eo lo
          vo).results.length = 4) := by
  constructor
  · exact successFlag_eq_true_iff _ _
  · intro hE hL hV hT m heo hlo hvo
    subst hE; subst hL; subst hV; subst heo; subst hlo; subst hvo
    simp [processCall, hT, successFlag]

/-- Witness for `process_call_success_formula`: embedding raises, LLM and
vector write succeed. -/
theorem process_call_success_formula_witness :
    ((processCall true true true "call-1" "t" (.exc "boom") .ok .ok).success =
        true ↔
      ((processCall true true true "call-1" "t" (.exc "boom") .ok .ok).errors =
          [] ∨
        (processCall true true true "call-1" "t" (.exc "boom") .ok
            .ok).errors.length <
          (processCall true true true "call-1" "t" (.exc "boom") .ok
              .ok).results.length)) ∧
    ((processCall true true true "call-1" "t" (.exc "boom") .ok .ok).success =
        true ∧
      (processCall true true true "call-1" "t" (.exc "boom") .ok
          .ok).errors.length = 1 ∧
      (processCall true true true "call-1" "t" (.exc "boom") .ok
          .ok).results.length = 4) :=
  ⟨(process_call_success_formula true true true "call-1" "t" (.exc "boom")
      .ok .ok).1,
    (process_call_success_formula true true true "call-1" "t" (.exc "boom")
        .ok .ok).2 rfl rfl rfl (by decide) "boom" rfl rfl rfl⟩

end CallAnalytics

namespace CallAnalytics

/-! ### C4: `HuggingFaceService._validate_and_clean_response`
(huggingface_service.py:235-282) -/

/-- Python `content.split()`: split on whitespace runs, no empty words. -/
def wordsAux : List Char → List Char → List String
  | [], acc => if acc.isEmpty then [] else [String.mk acc.reverse]
  | c :: cs, acc =>
    if c.isWhitespace then
      if acc.isEmpty then wordsAux cs []
      else String.mk acc.reverse :: wordsAux cs []
    else wordsAux cs (c :: acc)

def wordsOf (s : String) : List String := wordsAux s.data []

/-- `' '.join(ws)`. -/
def joinWords : List String → String
  | [] => ""
  | [w] => w
  | w :: ws => w ++ " " ++ joinWords ws

/-- `s.strip()`. -/
def trimString (s : String) : String := String.mk (trimChars s.data)

/-- The overlapping 3-word windows `words[i:i+3]` for
`i in range(len(words) - 2)`. -/
def windows3 : List String → List (List String)
  | w1 :: w2 :: w3 :: rest => [w1, w2, w3] :: windows3 (w2 :: w3 :: rest)
  | _ => []

/-- `' '.join(words[i:i+3])`. -/
def phraseOf (tri : List String) : String := joinWords tri

/-- `max(phrase_counts.values())` — the multiplicity of the most frequent
3-word phrase (0 when there are no windows). -/
def maxRepetition (phrases : List String) : Nat :=
  (phrases.map (fun p => phrases.count p)).foldr max 0

/-- The truncation walk (huggingface_service.py:256-263): emit each
3-word window until the first window whose phrase was already seen, then
stop.  Note every window contributes all three of its words, so
consecutive windows overlap in the output. -/
def collectClean : List (List String) → List String → List String
  | [], _ => []
  | tri :: rest, seen =>
    if phraseOf tri ∈ seen then []
    else tri ++ collectClean rest (phraseOf tri :: seen)

/-- Python `s.replace(pat, '')` — left-to-right removal of every
occurrence; the fuel argument equals the remaining character count, and
each step consumes at least one character, so the fuel never runs dry. -/
def replaceAllAux (pat : List Char) : Nat → List Char → List Char
  | _, [] => []
  | 0, cs => cs
  | fuel + 1, c :: cs =>
    if pat.isPrefixOf (c :: cs) then
      replaceAllAux pat fuel (List.drop pat.length (c :: cs))
    else c :: replaceAllAux pat fuel cs

def removeAll (s pat : String) : String :=
  String.mk (replaceAllAux pat.data s.data.length s.data)

/-- The artifact stripping of huggingface_service.py:278-280. -/
def stripArtifacts (s : String) : String :=
  removeAll (removeAll (removeAll s "<|eot_id|>") "<|start_header_id|>")
    "<|end_header_id|>"

/-- The repetition guard of `_validate_and_clean_response`
(huggingface_service.py:244-267): `some ws` is the replacement word list
when the guard rewrites the content, `none` when the content passes
through. -/
def guardRepetition (words : List String) : Option (List String) :=
  if 20 < words.length then
    if 5 < maxRepetition ((windows3 words).map phraseOf) then
      let clean := collectClean (windows3 words) []
      if clean.isEmpty then some (words.take 50) else some (clean.take 100)
    else none
  else none

/-- `HuggingFaceService._validate_and_clean_response`
(huggingface_service.py:235-282).  The `expect_hebrew` language check only
logs, so the argument is unused. -/
def validateAndCleanResponse (content : String) (_expectHebrew : Bool) :
    String :=
  if content = "" then ""
  else
    let stripped := trimString content
    let c :=
      match guardRepetition (wordsOf stripped) with
      | some ws => joinWords ws
      | none => stripped
    trimString (stripArtifacts c)

/-- C4 counterexample: the 21-word output "a b c a b c …" (the phrase
"a b c" seven times) triggers the guard, but the sanitized content
"a b c b c a c a b" replays the overlapping 3-word windows — it is not a
prefix of the original text, contradicting the claim's "the sanitized
content is a prefix of the original text ending at the point where a
3-word phrase first recurs". -/
theorem repetition_guard_output_not_a_prefix :
    (wordsOf "a b c a b c a b c a b c a b c a b c a b c").length = 21 ∧
    maxRepetition
      ((windows3 (wordsOf "a b c a b c a b c a b c a b c a b c a b c")).map
        phraseOf) = 7 ∧
    validateAndCleanResponse "a b c a b c a b c a b c a b c a b c a b c"
      false = "a b c b c a c a b" ∧
    (validateAndCleanResponse "a b c a b c a b c a b c a b c a b c a b c"
        false).data.isPrefixOf
      "a b c a b c a b c a b c a b c a b c a b c".data = false := by
  refine ⟨by decide, by decide, by decide, by decide⟩

theorem collectClean_initial_segment :
    ∀ (ws : List (List String)) (seen : List String),
      ∃ m, m ≤ ws.length ∧ collectClean ws seen = (ws.take m).flatten := by
  intro ws
  induction ws with
  | nil => intro seen; exact ⟨0, by simp [collectClean]⟩
  | cons tri rest ih =>
    intro seen
    by_cases h : phraseOf tri ∈ seen
    · exact ⟨0, by simp, by simp [collectClean, h]⟩
    · obtain ⟨m, hm, heq⟩ := ih (phraseOf tri :: seen)
      refine ⟨m + 1, by simp; omega, ?_⟩
      simp only [collectClean, if_neg h, List.take_succ_cons, List.flatten_cons, heq]

/-- C4 amended: outputs of 20 words or fewer bypass the repetition guard
(only whitespace trimming and artifact removal apply); an output of more
than 20 words with some 3-word phrase occurring more than 5 times is
truncated based on the first repeat point, but what is emitted is the
concatenation of the successive overlapping 3-word windows preceding the
first repeated phrase — an initial segment of the window sequence, capped
at 100 words — not a contiguous prefix of the original text. -/
theorem repetition_guard_truncates_windows (content : String) (eh : Bool) :
    ((wordsOf (trimString content)).length ≤ 20 →
      validateAndCleanResponse content eh =
        (if content = "" then ""
          else trimString (stripArtifacts (trimString content)))) ∧
    (20 < (wordsOf (trimString content)).length →
      5 < maxRepetition
        ((windows3 (wordsOf (trimString content))).map phraseOf) →
      ∃ m, validateAndCleanResponse content eh =
        trimString (stripArtifacts (joinWords
          ((((windows3 (wordsOf (trimString content))).take m).flatten).take
            100)))) := by
  constructor
  · intro hle
    by_cases hc : content = ""
    · simp [validateAndCleanResponse, hc]
    · have hguard : guardRepetition (wordsOf (trimString content)) = none := by
        unfold guardRepetition
        rw [if_neg (by omega)]
      simp [validateAndCleanResponse, hc, hguard]
  · intro hlen hrep
    by_cases hc : content = ""
    · exfalso
      have h0 : (wordsOf (trimString "")).length = 0 := rfl
      rw [hc, h0] at hlen
      omega
    · have h3 : 2 < (wordsOf (trimString content)).length := by omega
      obtain ⟨a, b, c, r, habc⟩ :
          ∃ a b c r, wordsOf (trimString content) = a :: b :: c :: r := by
        rcases hw : wordsOf (trimString content) with _ | ⟨a, _ | ⟨b, _ | ⟨c, r⟩⟩⟩ <;>
          rw [hw] at h3 <;> simp at h3
        exact ⟨a, b, c, r, rfl⟩
      have hcleanne :
          collectClean (windows3 (wordsOf (trimString content))) [] ≠ [] := by
        rw [habc]
        simp [windows3, collectClean]
      have hclean := collectClean_initial_segment
        (windows3 (wordsOf (trimString content))) []
      obtain ⟨m, _, hm⟩ := hclean
      refine ⟨m, ?_⟩
      have hguard :
          guardRepetition (wordsOf (trimString content)) =
            some ((collectClean (windows3 (wordsOf (trimString content)))
              []).take 100) := by
        unfold guardRepetition
        rw [if_pos hlen, if_pos hrep]
        simp only [List.isEmpty_iff, if_neg hcleanne]
      simp only [validateAndCleanResponse, if_neg hc, hguard, hm]

/-- Witness for `repetition_guard_truncates_windows`: the short-output
exemption at a 3-word content, and the window-truncation shape at the
21-word repetitive content. -/
theorem repetition_guard_truncates_windows_witness :
    (validateAndCleanResponse "short hebrew answer" false =
      (if ("short hebrew answer" : String) = "" then ""
        else trimString (stripArtifacts (trimString "short hebrew answer")))) ∧
    (∃ m, validateAndCleanResponse
        "a b c a b c a b c a b c a b c a b c a b c" false =
      trimString (stripArtifacts (joinWords
        ((((windows3 (wordsOf (trimString
            "a b c a b c a b c a b c a b c a b c a b c"))).take m).flatten).take
          100)))) :=
  ⟨(repetition_guard_truncates_windows "short hebrew answer" false).1
      (by decide),
    (repetition_guard_truncates_windows
        "a b c a b c a b c a b c a b c a b c a b c" false).2 (by decide)
      (by decide)⟩

end CallAnalytics

namespace CallAnalytics

/-! ### C3: `EmbeddingService.generate_batch_embeddings`
(embedding_service.py:228-330) -/

/-- One embedding result; `processing_time`, `timestamp` and `model_name`
are constants or post-hoc bookkeeping not inspected by the ordering
claim. -/
structure EmbResult (E : Type) where
  text : String
  embedding : E
  textHash : String
  deriving Repr, DecidableEq

/-- `_preprocess_text` (embedding_service.py:159-162): identity —
"AlephBERT handles Hebrew natively". -/
def preprocessText (s : String) : String := s

/-- `_get_text_hash` — md5 hex digest, modelled as the identity
(collision-free deterministic hash). -/
def getTextHash (s : String) : String := s

/-- `text_hash in self.embedding_cache` / `self.embedding_cache[text_hash]`. -/
def lookupEmb {E : Type} : List (String × E) → String → Option E
  | [], _ => none
  | (k, v) :: rest, h => if k = h then some v else lookupEmb rest h

/-- The partition loop of embedding_service.py:245-271 over the
enumerated input: cached inputs become results immediately (in input
order); uncached inputs are queued as (index, text) pairs, mirroring the
parallel `uncached_indices` / `uncached_texts` lists. -/
def splitCached {E : Type} (ce : Bool) (cache : List (String × E)) :
    List (Nat × String) → List (EmbResult E) × List (Nat × String)
  | [] => ([], [])
  | (i, t) :: rest =>
    let pr := splitCached ce cache rest
    match (if ce then lookupEmb cache (getTextHash (preprocessText t)) else none) with
    | some v => (⟨t, v, getTextHash (preprocessText t)⟩ :: pr.1, pr.2)
    | none => (pr.1, (i, t) :: pr.2)

/-- `range(0, len(uncached_texts), batch_size)` slicing; the fuel equals
the list length, and each step consumes at least one element when
`1 ≤ n`. -/
def chunksOfFuel {α : Type} : Nat → Nat → List α → List (List α)
  | 0, _, _ => []
  | _, _, [] => []
  | fuel + 1, n, l => l.take n :: chunksOfFuel fuel n (l.drop n)

def chunksOf {α : Type} (n : Nat) (l : List α) : List (List α) :=
  chunksOfFuel l.length n l

/-- Result built for one uncached (index, text) pair
(embedding_service.py:292-307): `original_texts[original_idx]`,
the normalized backend embedding of the processed text, and
`text_hashes[original_idx]`. -/
def mkUncachedResult {E : Type} (texts : List String) (encode : String → E)
    (normalizeE : E → E) (p : Nat × String) : EmbResult E :=
  ⟨texts.getD p.1 "", normalizeE (encode (preprocessText p.2)),
    getTextHash (preprocessText p.2)⟩

/-- `original_texts.index(x.text)` — the sort key of
embedding_service.py:317: the index of the FIRST occurrence of the
result's text in the input list. -/
def sortKeyOf (texts : List String) {E : Type} (r : EmbResult E) : Nat :=
  texts.indexOf r.text

/-- Python `list.sort(key=...)` is a stable sort; insertion sort placing
each earlier element before later elements of equal key is one. -/
def sortStableByKey {α : Type} (key : α → Nat) (l : List α) : List α :=
  List.insertionSort (fun a b => key a ≤ key b) l

/-- `EmbeddingService.generate_batch_embeddings`
(embedding_service.py:228-330): partition into cached and uncached,
embed the uncached pairs in `batch_size` chunks (`model.encode` acts
elementwise), append those results after the cached ones, then sort the
combined list by `original_texts.index(x.text)`. -/
def generateBatchEmbeddings {E : Type} (ce : Bool) (cache : List (String × E))
    (encode : String → E) (normalizeE : E → E) (bs : Nat)
    (texts : List String) : List (EmbResult E) :=
  let split := splitCached ce cache texts.enum
  let uncachedResults :=
    ((chunksOf bs split.2).map
      (fun chunk => chunk.map (mkUncachedResult texts encode normalizeE))).flatten
  sortStableByKey (sortKeyOf texts) (split.1 ++ uncachedResults)

/-- C3 counterexample: for the duplicate-bearing input
`["a", "b", "a"]`, the reassembly sort keys every result by the FIRST
occurrence of its text, so both "a" results sort before "b": the output
texts are `["a", "a", "b"]` — the 2nd result does not correspond to the
2nd input text "b". -/
theorem embed_batch_duplicate_texts_reordered :
    (generateBatchEmbeddings true ([] : List (String × String))
        (fun t => t) (fun v => v) 32 ["a", "b", "a"]).map (fun r => r.text) =
      ["a", "a", "b"] ∧
    (["a", "a", "b"] : List String) ≠ ["a", "b", "a"] :=
  ⟨by decide, by decide⟩

theorem chunksOfFuel_flatten {α : Type} (n : Nat) (hn : 1 ≤ n) :
    ∀ (fuel : Nat) (l : List α), l.length ≤ fuel →
      (chunksOfFuel fuel n l).flatten = l := by
  intro fuel
  induction fuel with
  | zero =>
    intro l hl
    have : l = [] := List.eq_nil_of_length_eq_zero (by omega)
    subst this
    rfl
  | succ fuel ih =>
    intro l hl
    match l with
    | [] => rfl
    | x :: xs =>
      show ((x :: xs).take n :: chunksOfFuel fuel n ((x :: xs).drop n)).flatten =
        x :: xs
      rw [List.flatten_cons, ih ((x :: xs).drop n)
        (by
          rw [List.length_drop]
          simp only [List.length_cons] at hl ⊢
          omega)]
      exact List.take_append_drop n (x :: xs)

theorem chunksOf_map_flatten {α β : Type} (n : Nat) (hn : 1 ≤ n) (f : α → β)
    (l : List α) :
    ((chunksOf n l).map (fun c => c.map f)).flatten = l.map f := by
  have heta : (fun c : List α => c.map f) = List.map f := rfl
  rw [heta, ← List.map_flatten, chunksOf,
    chunksOfFuel_flatten n hn l.length l (Nat.le_refl _)]

theorem splitCached_length {E : Type} (ce : Bool) (cache : List (String × E)) :
    ∀ l : List (Nat × String),
      (splitCached ce cache l).1.length + (splitCached ce cache l).2.length =
        l.length := by
  intro l
  induction l with
  | nil => rfl
  | cons p rest ih =>
    obtain ⟨i, t⟩ := p
    simp only [splitCached]
    cases hm : (if ce then lookupEmb cache (getTextHash (preprocessText t)) else none) with
    | none =>
      simp only [List.length_cons]
      omega
    | some v =>
      simp only [List.length_cons]
      omega

/-- The combined result list before the reassembly sort: cached results
in input order followed by the uncached results in input order. -/
def preList {E : Type} (ce : Bool) (cache : List (String × E))
    (texts : List String) (encode : String → E) (normalizeE : E → E)
    (l : List (Nat × String)) : List (EmbResult E) :=
  (splitCached ce cache l).1 ++
    (splitCached ce cache l).2.map (mkUncachedResult texts encode normalizeE)

theorem indexOf_getD {α : Type} [DecidableEq α] (l : List α) (hnd : l.Nodup)
    (i : Nat) (h : i < l.length) (d : α) : l.indexOf (l.getD i d) = i := by
  rw [List.getD_eq_getElem l d h]
  exact List.indexOf_getElem hnd i h

theorem preList_keys_perm {E : Type} (ce : Bool) (cache : List (String × E))
    (texts : List String) (encode : String → E) (normalizeE : E → E)
    (hnd : texts.Nodup) :
    ∀ l : List (Nat × String),
      (∀ p ∈ l, p.1 < texts.length ∧ texts.getD p.1 "" = p.2) →
      List.Perm
        ((preList ce cache texts encode normalizeE l).map (sortKeyOf texts))
        (l.map Prod.fst) := by
  intro l
  induction l with
  | nil => intro; simp [preList, splitCached]
  | cons p rest ih =>
    obtain ⟨i, t⟩ := p
    intro hgood
    have hp := hgood (i, t) (by simp)
    have hrest := fun q hq => hgood q (List.mem_cons_of_mem _ hq)
    have hp1 : i < texts.length := hp.1
    have hp2 : texts.getD i "" = t := hp.2
    have hkt : texts.indexOf t = i := by
      rw [← hp2]
      exact indexOf_getD texts hnd i hp1 ""
    simp only [preList, splitCached] at ih ⊢
    cases hm : (if ce then lookupEmb cache (getTextHash (preprocessText t)) else none) with
    | some v =>
      simp only [List.cons_append, List.map_cons]
      have hkey : sortKeyOf texts (⟨t, v, getTextHash (preprocessText t)⟩ : EmbResult E) = i := by
        simp only [sortKeyOf]
        exact hkt
      rw [hkey]
      exact (ih hrest).cons i
    | none =>
      simp only [List.map_cons, List.map_append]
      have hkey : sortKeyOf texts (mkUncachedResult texts encode normalizeE (i, t)) = i := by
        simp only [sortKeyOf, mkUncachedResult]
        exact indexOf_getD texts hnd i hp.1 ""
      rw [hkey]
      refine List.Perm.trans List.perm_middle ?_
      have := (ih hrest).cons i
      simpa [List.map_append] using this

theorem preList_text_mem {E : Type} (ce : Bool) (cache : List (String × E))
    (texts : List String) (encode : String → E) (normalizeE : E → E) :
    ∀ l : List (Nat × String),
      (∀ p ∈ l, p.1 < texts.length ∧ texts.getD p.1 "" = p.2) →
      ∀ r ∈ preList ce cache texts encode normalizeE l,
        ∃ i, i < texts.length ∧ r.text = texts.getD i "" := by
  intro l
  induction l with
  | nil => intro _ r hr; simp [preList, splitCached] at hr
  | cons p rest ih =>
    obtain ⟨i, t⟩ := p
    intro hgood r hr
    have hp := hgood (i, t) (by simp)
    have hrest := fun q hq => hgood q (List.mem_cons_of_mem _ hq)
    simp only [preList, splitCached] at ih hr
    cases hm : (if ce then lookupEmb cache (getTextHash (preprocessText t)) else none) with
    | some v =>
      rw [hm] at hr
      simp only [List.cons_append, List.mem_cons] at hr
      rcases hr with hr | hr
      · have hp1 : i < texts.length := hp.1
        have hp2 : texts.getD i "" = t := hp.2
        refine ⟨i, hp1, ?_⟩
        rw [hr]
        exact hp2.symm
      · exact ih hrest r hr
    | none =>
      rw [hm] at hr
      simp only [List.map_cons] at hr
      rcases List.mem_append.mp hr with hr | hr
      · exact ih hrest r (List.mem_append.mpr (Or.inl hr))
      · simp only [List.mem_cons] at hr
        rcases hr with hr | hr
        · refine ⟨i, hp.1, ?_⟩
          rw [hr]
          rfl
        · exact ih hrest r (List.mem_append.mpr (Or.inr hr))

theorem sortStable_map_text {E : Type} (texts : List String)
    (pre : List (EmbResult E))
    (hperm : List.Perm (pre.map (sortKeyOf texts)) (List.range texts.length))
    (htext : ∀ r ∈ pre, r.text = texts.getD (sortKeyOf texts r) "") :
    (sortStableByKey (sortKeyOf texts) pre).map (fun r => r.text) = texts := by
  have hperm' : List.Perm (sortStableByKey (sortKeyOf texts) pre) pre :=
    List.perm_insertionSort _ pre
  haveI : IsTotal (EmbResult E) (fun a b => sortKeyOf texts a ≤ sortKeyOf texts b) :=
    ⟨fun a b => Nat.le_total _ _⟩
  haveI : IsTrans (EmbResult E) (fun a b => sortKeyOf texts a ≤ sortKeyOf texts b) :=
    ⟨fun _ _ _ => Nat.le_trans⟩
  have hsorted := List.sorted_insertionSort
    (fun a b => sortKeyOf texts a ≤ sortKeyOf texts b) pre
  have hkeysSorted :
      List.Sorted (· ≤ ·) ((sortStableByKey (sortKeyOf texts) pre).map (sortKeyOf texts)) :=
    List.pairwise_map.mpr hsorted
  have hkeysPerm :
      List.Perm
        ((sortStableByKey (sortKeyOf texts) pre).map (sortKeyOf texts))
        (List.range texts.length) :=
    (hperm'.map (sortKeyOf texts)).trans hperm
  have hkeys :
      (sortStableByKey (sortKeyOf texts) pre).map (sortKeyOf texts) =
        List.range texts.length :=
    List.eq_of_perm_of_sorted hkeysPerm hkeysSorted (List.sorted_le_range _)
  have hslen : (sortStableByKey (sortKeyOf texts) pre).length = texts.length := by
    have := congrArg List.length hkeys
    simpa using this
  apply List.ext_getElem
  · simpa using hslen
  · intro i h1 h2
    have hi : i < (sortStableByKey (sortKeyOf texts) pre).length := by
      simpa using h1
    rw [List.getElem_map]
    have hkeyi : sortKeyOf texts ((sortStableByKey (sortKeyOf texts) pre)[i]) = i := by
      have h3 : ((sortStableByKey (sortKeyOf texts) pre).map (sortKeyOf texts))[i]? =
          (List.range texts.length)[i]? := by rw [hkeys]
      rw [List.getElem?_map, List.getElem?_range h2,
        List.getElem?_eq_getElem hi] at h3
      simpa using h3
    have hmem : (sortStableByKey (sortKeyOf texts) pre)[i] ∈ pre :=
      hperm'.mem_iff.mp (List.getElem_mem hi)
    rw [htext _ hmem, hkeyi]
    exact List.getD_eq_getElem texts "" h2

/-- C3 amended: for every input list, `generate_batch_embeddings` returns
exactly one result per input text; when the input list contains no
duplicate texts, the i-th result corresponds to the i-th input,
regardless of the cached/uncached partition and of the batch chunking.
With duplicate texts the positional correspondence fails: the sort key is
the first occurrence of each text, so duplicates regroup at the first
occurrence (see the counterexample). -/
theorem embed_batch_one_result_per_input_and_order {E : Type} (ce : Bool)
    (cache : List (String × E)) (encode : String → E) (normalizeE : E → E)
    (bs : Nat) (texts : List String) (hbs : 1 ≤ bs) :
    (generateBatchEmbeddings ce cache encode normalizeE bs texts).length =
      texts.length ∧
    (texts.Nodup →
      (generateBatchEmbeddings ce cache encode normalizeE bs texts).map
        (fun r => r.text) = texts) := by
  have hbridge : generateBatchEmbeddings ce cache encode normalizeE bs texts =
      sortStableByKey (sortKeyOf texts)
        (preList ce cache texts encode normalizeE texts.enum) := by
    simp only [generateBatchEmbeddings]
    rw [chunksOf_map_flatten bs hbs]
    rfl
  have hgood : ∀ p ∈ texts.enum, p.1 < texts.length ∧ texts.getD p.1 "" = p.2 := by
    intro p hp
    have hsome := List.mem_enum_iff_getElem?.mp hp
    have hlt : p.1 < texts.length := by
      by_contra hge
      rw [List.getElem?_eq_none (by omega)] at hsome
      exact Option.noConfusion hsome
    refine ⟨hlt, ?_⟩
    rw [List.getElem?_eq_getElem hlt] at hsome
    rw [List.getD_eq_getElem texts "" hlt]
    exact Option.some.inj hsome
  constructor
  · rw [hbridge]
    have h1 := (List.perm_insertionSort
      (fun a b => sortKeyOf texts a ≤ sortKeyOf texts b)
      (preList ce cache texts encode normalizeE texts.enum)).length_eq
    rw [sortStableByKey, h1, preList, List.length_append, List.length_map,
      splitCached_length, List.enum_length]
  · intro hnd
    rw [hbridge]
    apply sortStable_map_text texts
    · have := preList_keys_perm ce cache texts encode normalizeE hnd texts.enum hgood
      rwa [List.enum_map_fst] at this
    · intro r hr
      obtain ⟨i, hi, ht⟩ :=
        preList_text_mem ce cache texts encode normalizeE texts.enum hgood r hr
      have hkey : sortKeyOf texts r = i := by
        rw [sortKeyOf, ht]
        exact indexOf_getD texts hnd i hi ""
      rw [hkey, ht]

/-- Witness for `embed_batch_one_result_per_input_and_order` at a
concrete duplicate-free input. -/
theorem embed_batch_one_result_per_input_and_order_witness :
    (generateBatchEmbeddings true ([] : List (String × String))
        (fun t => t) (fun v => v) 32 ["x", "y"]).length = 2 ∧
    (generateBatchEmbeddings true ([] : List (String × String))
        (fun t => t) (fun v => v) 32 ["x", "y"]).map (fun r => r.text) =
      ["x", "y"] :=
  ⟨(embed_batch_one_result_per_input_and_order true [] (fun t => t)
      (fun v => v) 32 ["x", "y"] (by decide)).1,
    (embed_batch_one_result_per_input_and_order true [] (fun t => t)
        (fun v => v) 32 ["x", "y"] (by decide)).2 (by decide)⟩

end CallAnalytics
